import Mathlib

/-!
Shallow embedding of the stegoimg package (write_img.go, the buffered
writer variant that stamps at Close, and the reader of the implemented
NewStegoImgReader/Read pair).  Pixel channel samples are the 16-bit
values that the Go method color.Color.RGBA() returns for the first three
channels; machine integers are modelled as Nat with explicit `% 2^w`
where the Go code truncates (byte(...), uint16(...), uint32(...)).
-/

/-- The error taxonomy of the package (plus the spec-named construction
errors).  `EndOfStream` (io.EOF) is modelled as the Bool `eof` field of
`ReadResult`. -/
inductive StegoErr where
  | ImageFull
  | ImageClosed
  | CarrierTooSmall
  | TruncatedCarrier
  | UnsupportedFormat
deriving DecidableEq, Repr

/-- The container formats the Go code switches on (`format` string);
`unknown` stands for any other string. -/
inductive Fmt where
  | png
  | jpeg
  | gif
  | bmp
  | unknown
deriving DecidableEq, Repr

/-- One pixel as the Go code sees it: the first three return values of
col.RGBA() (16-bit samples, 0..0xFFFF for a decoded image) plus the
alpha value (which write_img.go discards with `_`). -/
structure Pixel where
  r : Nat
  g : Nat
  b : Nat
  a : Nat

/-- A decoded raster image: Bounds().Max.X = W, Bounds().Max.Y = H (Go
images decoded from a file have a zero origin), and the pixel grid
`At(x, y)`.  `px` is a total function; only 0 ≤ x < W, 0 ≤ y < H is
ever sampled by the code. -/
structure Grid where
  W : Nat
  H : Nat
  px : Nat → Nat → Pixel

/-- Channel `v` of a pixel: vals[0], vals[1], vals[2] of write_img.go /
the reader (v ≥ 3 never occurs in the loops; it is mapped to b). -/
def chanAt (p : Pixel) : Nat → Nat
  | 0 => p.r
  | 1 => p.g
  | _ => p.b

/-- The channel sample at linear traversal index `i` of the fixed
row-major / channel-inner traversal shared by Close and the reader:
index 3*(y*W + x) + v holds channel v of pixel (x, y). -/
def sampleAt (g : Grid) (i : Nat) : Nat :=
  chanAt (g.px ((i % (3 * g.W)) / 3) (i / (3 * g.W))) (i % 3)

/-- The low byte of a channel sample, `byte(vals[v] & 0x00FF)` in the
reader. -/
def lowByte (g : Grid) (i : Nat) : Nat :=
  sampleAt g i &&& 0xFF

/-- binary.BigEndian.PutUint32: the four bytes b[0] = byte(v >> 24),
b[1] = byte(v >> 16), b[2] = byte(v >> 8), b[3] = byte(v); byte(...) is
truncation mod 256. -/
def putUint32BE (v : Nat) : List Nat :=
  [(v >>> 24) % 256, (v >>> 16) % 256, (v >>> 8) % 256, v % 256]

/-- binary.BigEndian.Uint32 over a 4-byte slice:
uint32(b[0])<<24 | uint32(b[1])<<16 | uint32(b[2])<<8 | uint32(b[3]). -/
def getUint32BE (l : List Nat) : Nat :=
  (l.getD 0 0) <<< 24 ||| (l.getD 1 0) <<< 16 ||| (l.getD 2 0) <<< 8 ||| l.getD 3 0

/-- The StegoImgWriter state of write_img.go.  `data` is the byte
buffer (list of values < 256 in any reachable state), `cap` the Go
slice capacity of `data` (Go tracks it inside the slice header), `grid`
the decoded orig_img, `output`/new_img are not modelled (new_img is
produced by `close`). -/
structure StegoImgWriter where
  is_open : Bool
  data : List Nat
  cap : Nat
  grid : Grid
  format : Fmt

/-- NewStegoImgWriter after a successful image.Decode of a carrier with
format `fmt`:  the format is unconditionally overwritten to "png"
(// BUG(Andrew): only PNG format currently works), the data slice is
allocated with capacity size = (Max.X - 1) * (Max.Y - 1) * 3, and the
4 header bytes are appended.  When size < 4 the append exceeds the
allocated capacity and the Go append reallocates; growslice for a byte
slice with old capacity ≤ 3 and new length 4 yields capacity 8 (size
class 8), so the append itself never fails. -/
def newStegoImgWriter (g : Grid) (fmt : Fmt) : StegoImgWriter :=
  let size := (g.W - 1) * (g.H - 1) * 3
  { is_open := true
    data := [0, 0, 0, 0]
    cap := if size < 4 then 8 else size
    grid := g
    -- the decoded format `fmt` is discarded: tmp_img.format = "png"
    format := Fmt.png }

/-- The (img, e) pair NewStegoImgWriter returns.  Once image.Decode has
succeeded (we are handed the decoded grid), the constructor has no
remaining failure path: e is nil on every exit after the decode. -/
def newStegoImgWriterE (g : Grid) (fmt : Fmt) : Except StegoErr StegoImgWriter :=
  Except.ok (newStegoImgWriter g fmt)

/-- The loop of Write: for each byte of p, append it while
len(data) < cap(data), otherwise return the count so far with
ImageFullError. -/
def writeLoop (w : StegoImgWriter) : List Nat → Nat → Nat × Option StegoErr × StegoImgWriter
  | [], n => (n, none, w)
  | b :: rest, n =>
    if w.data.length < w.cap then
      writeLoop { w with data := w.data ++ [b] } rest (n + 1)
    else
      (n, some StegoErr.ImageFull, w)

/-- Write: returns (0, ImageClosedError) when the writer is not open,
otherwise runs the append loop. -/
def StegoImgWriter.write (w : StegoImgWriter) (p : List Nat) : Nat × Option StegoErr × StegoImgWriter :=
  if w.is_open then writeLoop w p 0 else (0, some StegoErr.ImageClosed, w)

/-- SpaceLeft: cap(img.data) - len(img.data). -/
def StegoImgWriter.spaceLeft (w : StegoImgWriter) : Nat :=
  w.cap - w.data.length

/-- One output channel sample of the stamping loop of Close.  The
`pos` counter of the loop equals the linear traversal index, so sample i gets
(vals & 0xFF00) | data[i] while i < len(data) and the untouched
original sample afterwards; uint16(...) truncates mod 2^16. -/
def stampSample (g : Grid) (data : List Nat) (i : Nat) : Nat :=
  (if i < data.length then (sampleAt g i &&& 0xFF00) ||| data.getD i 0
   else sampleAt g i) % 65536

/-- The new_img grid produced by Close: every pixel (x,y) receives the
three stamped samples at indices 3*(y*W+x)+v and alpha 0xFFFF
(SetNRGBA64 with color.NRGBA64{..., 0xFFFF}). -/
def closeGrid (g : Grid) (data : List Nat) : Grid :=
  { W := g.W
    H := g.H
    px := fun x y =>
      { r := stampSample g data (3 * (y * g.W + x))
        g := stampSample g data (3 * (y * g.W + x) + 1)
        b := stampSample g data (3 * (y * g.W + x) + 2)
        a := 0xFFFF } }

/-- What Close produces: the stamped output grid (handed to the
container encoder), the error returned by Close, and the writer state after
the call. -/
structure CloseResult where
  outGrid : Grid
  err : Option StegoErr
  writer : StegoImgWriter

/-- Close: size := uint32(len(data) - 4) is stamped big-endian over
data[0:4], the grid is stamped, is_open is cleared, and the format
switch encodes; the error result of png.Encode is discarded, so every
recognised format returns nil. -/
def StegoImgWriter.close (w : StegoImgWriter) : CloseResult :=
  let size := (w.data.length - 4) % 2 ^ 32
  let data := putUint32BE size ++ w.data.drop 4
  { outGrid := closeGrid w.grid data
    err := match w.format with
           | Fmt.png => none
           | Fmt.jpeg => none
           | Fmt.gif => none
           | Fmt.bmp => none
           | Fmt.unknown => some StegoErr.UnsupportedFormat
    writer := { w with is_open := false, data := data } }

/-- The state of the decode loop of NewStegoImgReader: the data
buffer, the write position into it, and the got_size flag. -/
structure RState where
  data : List Nat
  pos : Nat
  gotSize : Bool
deriving DecidableEq, Repr

/-- One iteration of the inner reader loop at traversal index `i`:
none models `break ReadLoop` (pos has reached len(data)); otherwise the
low byte of sample i is stored at pos, pos is incremented, and when pos
just reached 4 with got_size unset, the size is parsed from the (just
updated) 4-byte buffer and data is reallocated to `size` zero bytes
with pos reset. -/
def readStep (g : Grid) (i : Nat) (s : RState) : Option RState :=
  if s.pos < s.data.length then
    let d := s.data.set s.pos (lowByte g i)
    let p := s.pos + 1
    if p = 4 ∧ s.gotSize = false then
      some { data := List.replicate (getUint32BE d) 0, pos := 0, gotSize := true }
    else
      some { data := d, pos := p, gotSize := s.gotSize }
  else
    none

/-- The nested y/x/v reader loops, linearised over the traversal
index: run `fuel` steps starting at index `i`, stopping at the break. -/
def readLoop (g : Grid) : Nat → Nat → RState → RState
  | _, 0, s => s
  | i, fuel + 1, s =>
    match readStep g i s with
    | none => s
    | some s2 => readLoop g (i + 1) fuel s2

/-- A StegoImgReader: the materialised payload buffer and the read
position. -/
structure StegoImgReader where
  data : List Nat
  pos : Nat
deriving DecidableEq, Repr

/-- NewStegoImgReader after a successful image.Decode: the loop starts
with a 4-byte zero buffer and runs over all 3*W*H samples of the grid
(or stops at the break), and the resulting buffer becomes the data
of the reader.  The constructor returns e = nil on every path after the decode:
grid exhaustion is not detected. -/
def newStegoImgReader (g : Grid) : StegoImgReader :=
  let s := readLoop g 0 (3 * g.W * g.H) { data := [0, 0, 0, 0], pos := 0, gotSize := false }
  { data := s.data, pos := 0 }

/-- The (img, e) pair NewStegoImgReader returns given a successfully
decoded grid: no failure path remains. -/
def newStegoImgReaderE (g : Grid) : Except StegoErr StegoImgReader :=
  Except.ok (newStegoImgReader g)

/-- What a Read call returns: the bytes copied into p, the count n, the
eof flag (io.EOF), and the reader afterwards. -/
structure ReadResult where
  bytes : List Nat
  n : Nat
  eof : Bool
  reader : StegoImgReader
deriving DecidableEq, Repr

/-- Read with a buffer of length buflen: to_read := len(p), clamped to
len(data) - pos; the copy loop moves that many bytes from data[pos...]
and advances pos; io.EOF is returned exactly when the advanced pos
equals len(data). -/
def StegoImgReader.read (r : StegoImgReader) (buflen : Nat) : ReadResult :=
  let to_read := if buflen > r.data.length - r.pos then r.data.length - r.pos else buflen
  { bytes := (r.data.drop r.pos).take to_read
    n := to_read
    eof := decide (r.pos + to_read = r.data.length)
    reader := { r with pos := r.pos + to_read } }

/-- An all-zero carrier of the given dimensions, used for concrete
evaluations. -/
def cgrid (W H : Nat) : Grid :=
  { W := W, H := H, px := fun _ _ => { r := 0, g := 0, b := 0, a := 0 } }

/-- A 1x2 carrier whose low bytes along the traversal are
[0, 0, 0, 5, 7, 8]: its header claims a 5-byte payload while only two
encodable samples remain after the header. -/
def truncGrid : Grid :=
  { W := 1, H := 2,
    px := fun _ y => if y = 0 then ⟨0, 0, 0, 0⟩ else ⟨5, 7, 8, 0⟩ }

/-- Closed form of the Write loop (for states respecting the Go slice
invariant len ≤ cap): everything fits, or the buffer is filled to
capacity and ImageFull is reported with the partial count. -/
theorem writeLoop_spec (p : List Nat) : ∀ (w : StegoImgWriter) (n : Nat),
    w.data.length ≤ w.cap →
    writeLoop w p n =
      if w.data.length + p.length ≤ w.cap then
        (n + p.length, none, { w with data := w.data ++ p })
      else
        (n + (w.cap - w.data.length), some StegoErr.ImageFull,
          { w with data := w.data ++ p.take (w.cap - w.data.length) }) := by
  induction p with
  | nil =>
    intro w n hw
    rw [if_pos (by simpa using hw)]
    simp [writeLoop]
  | cons b rest ih =>
    intro w n hw
    by_cases h : w.data.length < w.cap
    · rw [writeLoop, if_pos h, ih _ _ (by simp; omega)]
      by_cases h2 : w.data.length + (b :: rest).length ≤ w.cap
      · rw [if_pos (by simp at h2 ⊢; omega), if_pos h2]
        simp [List.append_assoc]
        omega
      · rw [if_neg (by simp at h2 ⊢; omega), if_neg h2]
        have hc : w.cap - w.data.length = (w.cap - (w.data.length + 1)) + 1 := by omega
        simp [hc, List.append_assoc]
        omega
    · rw [writeLoop, if_neg h]
      rw [if_neg (by simp; omega)]
      have hc : w.cap - w.data.length = 0 := by omega
      simp [hc]

/-- Extracting the low byte of a stamped sample recovers the stamped
byte: the mask &&& 0xFF00 clears the low 8 bits before the or. -/
theorem stamp_low (x d : Nat) (hd : d < 256) : ((x &&& 0xFF00) ||| d) &&& 255 = d := by
  have h255 : (255 : Nat) = 2 ^ 8 - 1 := by norm_num
  rw [h255, Nat.and_pow_two_sub_one_eq_mod]
  apply Nat.eq_of_testBit_eq
  intro j
  rw [Nat.testBit_mod_two_pow]
  by_cases hj : j < 8
  · have hff : Nat.testBit 0xFF00 j = false := by interval_cases j <;> rfl
    simp [hj, Nat.testBit_or, Nat.testBit_and, hff]
  · have hpow : (256 : Nat) ≤ 2 ^ j := by
      calc (256 : Nat) = 2 ^ 8 := by norm_num
        _ ≤ 2 ^ j := Nat.pow_le_pow_right (by norm_num) (by omega)
    have hdj : d.testBit j = false :=
      Nat.testBit_eq_false_of_lt (lt_of_lt_of_le hd hpow)
    simp [hj, hdj]

/-- A stamped sample fits in 16 bits, so the uint16 conversion in
SetNRGBA64 does not truncate it. -/
theorem stamp_lt (x d : Nat) (hd : d < 256) : (x &&& 0xFF00) ||| d < 65536 := by
  have h1 : x &&& 0xFF00 < 2 ^ 16 :=
    lt_of_le_of_lt Nat.and_le_right (by norm_num)
  have h2 : d < 2 ^ 16 := lt_of_lt_of_le hd (by norm_num)
  have := Nat.or_lt_two_pow h1 h2
  simpa using this

/-- Re-encoding the decoded (x, y, v) coordinates of a traversal index
gives back the index: the traversal is a bijection between indices and
cursor positions. -/
theorem traversal_encode_decode (i W : Nat) :
    3 * ((i / (3 * W)) * W + (i % (3 * W)) / 3) + i % 3 = i := by
  have h1 : i % (3 * W) % 3 = i % 3 := Nat.mod_mod_of_dvd i ⟨W, rfl⟩
  have h2 : 3 * W * (i / (3 * W)) + i % (3 * W) = i := Nat.div_add_mod i (3 * W)
  have h3 : 3 * (i % (3 * W) / 3) + i % (3 * W) % 3 = i % (3 * W) := Nat.div_add_mod _ 3
  calc 3 * ((i / (3 * W)) * W + (i % (3 * W)) / 3) + i % 3
      = 3 * W * (i / (3 * W)) + (3 * (i % (3 * W) / 3) + i % (3 * W) % 3) := by
        rw [← h1]; ring
    _ = 3 * W * (i / (3 * W)) + i % (3 * W) := by rw [h3]
    _ = i := h2

/-- Parsing the serialized header recovers the length for any value
that fits the 4-byte field. -/
theorem getUint32BE_putUint32BE (v : Nat) (hv : v < 2 ^ 32) :
    getUint32BE (putUint32BE v) = v := by
  have h256 : (256 : Nat) = 2 ^ 8 := by norm_num
  apply Nat.eq_of_testBit_eq
  intro j
  simp only [getUint32BE, putUint32BE, List.getD_cons_zero, List.getD_cons_succ, h256,
    Nat.testBit_or, Nat.testBit_shiftLeft, Nat.testBit_mod_two_pow, Nat.testBit_shiftRight]
  by_cases h8 : j < 8
  · simp [h8, show ¬(24 ≤ j) from by omega, show ¬(16 ≤ j) from by omega,
      show ¬(8 ≤ j) from by omega]
  · by_cases h16 : j < 16
    · simp [show ¬(24 ≤ j) from by omega, show ¬(16 ≤ j) from by omega,
        show 8 ≤ j from by omega, show j - 8 < 8 from by omega, h8,
        show 8 + (j - 8) = j from by omega]
    · by_cases h24 : j < 24
      · simp [show ¬(24 ≤ j) from by omega, show 16 ≤ j from by omega,
          show j - 16 < 8 from by omega, show ¬(j - 8 < 8) from by omega, h8,
          show 16 + (j - 16) = j from by omega]
      · by_cases h32 : j < 32
        · simp [show 24 ≤ j from by omega, show j - 24 < 8 from by omega,
            show ¬(j - 16 < 8) from by omega, show ¬(j - 8 < 8) from by omega, h8,
            show 24 + (j - 24) = j from by omega]
        · have hvj : v.testBit j = false := by
            apply Nat.testBit_eq_false_of_lt
            calc v < 2 ^ 32 := hv
              _ ≤ 2 ^ j := Nat.pow_le_pow_right (by norm_num) (by omega)
          simp [show ¬(j - 24 < 8) from by omega, show ¬(j - 16 < 8) from by omega,
            show ¬(j - 8 < 8) from by omega, h8, hvj]


/-- Taking one past a just-set position splits off the set element. -/
theorem take_set (l : List Nat) (n a : Nat) (h : n < l.length) :
    (l.set n a).take (n+1) = l.take n ++ [a] := by
  rw [List.set_eq_take_cons_drop a h]
  rw [List.take_append_eq_append_take]
  simp [List.length_take, Nat.min_eq_left (le_of_lt h)]

/-- Once the size is known (got_size set), the remaining iterations of
the reader loop copy low bytes of consecutive samples into the buffer
until it is full, and then break, whatever fuel is left. -/
theorem readLoop_fill (g : Grid) : ∀ (k i fuel : Nat) (s : RState),
    s.gotSize = true → s.data.length = s.pos + k → k ≤ fuel →
    readLoop g i fuel s =
      { data := s.data.take s.pos ++ (List.range k).map (fun j => lowByte g (i + j)),
        pos := s.pos + k, gotSize := true } := by
  intro k
  induction k with
  | zero =>
    intro i fuel s hg hl hk
    obtain ⟨d, p, gs⟩ := s
    simp only at hg hl
    subst hg
    have hd : d.take p = d := by
      have : p = d.length := by omega
      rw [this, List.take_length]
    cases fuel with
    | zero => simp [readLoop, hd]
    | succ f =>
      rw [readLoop, readStep, if_neg (by simp; omega)]
      simp [hd]
  | succ k ih =>
    intro i fuel s hg hl hk
    obtain ⟨d, p, gs⟩ := s
    simp only at hg hl ⊢
    subst hg
    cases fuel with
    | zero => omega
    | succ f =>
      have hplen : p < d.length := by omega
      have hstep : readStep g i ⟨d, p, true⟩ =
          some ⟨d.set p (lowByte g i), p + 1, true⟩ := by
        rw [readStep, if_pos (by simpa using hplen)]
        simp
      rw [readLoop, hstep]
      show readLoop g (i + 1) f ⟨d.set p (lowByte g i), p + 1, true⟩ = _
      rw [ih (i+1) f ⟨d.set p (lowByte g i), p + 1, true⟩ rfl (by simp; omega) (by omega)]
      simp only [RState.mk.injEq]
      refine ⟨?_, by omega, trivial⟩
      rw [take_set d p _ hplen]
      rw [List.range_succ_eq_map]
      simp only [List.map_cons, List.map_map, List.append_assoc, List.cons_append,
        List.nil_append, Nat.add_zero]
      congr 2
      apply List.map_eq_map_iff.mpr
      intro a _
      simp only [Function.comp]
      congr 1
      omega

/-- getD at an in-range index is a member of the list. -/
theorem getD_mem (l : List Nat) (n d : Nat) (h : n < l.length) : l.getD n d ∈ l := by
  rw [List.getD_eq_getElem l d h]
  exact List.getElem_mem h

/-- Collecting getD over all indices rebuilds the list. -/
theorem map_range_getD (l : List Nat) :
    (List.range l.length).map (fun j => l.getD j 0) = l := by
  apply List.ext_getElem
  · simp
  · intro i h1 h2
    simp [List.getD, List.getElem?_eq_getElem h2]

/-- getD into a take, below the cut, reads the underlying list. -/
theorem getD_take_lt (l : List Nat) (n j d : Nat) (h : j < n) :
    (l.take n).getD j d = l.getD j d := by
  simp only [List.getD, List.get?_eq_getElem?]
  rw [List.getElem?_take_of_lt h]

/-- getD into a drop reads the underlying list at the shifted index. -/
theorem getD_drop (l : List Nat) (n j d : Nat) :
    (l.drop n).getD j d = l.getD (n + j) d := by
  simp only [List.getD, List.get?_eq_getElem?]
  rw [List.getElem?_drop]

/-- The stamped output grid, read through the traversal, is the stamp
of the corresponding index. -/
theorem sampleAt_closeGrid (g : Grid) (data : List Nat) (i : Nat) :
    sampleAt (closeGrid g data) i = stampSample g data i := by
  have h := traversal_encode_decode i g.W
  have h3 : i % 3 = 0 ∨ i % 3 = 1 ∨ i % 3 = 2 := by omega
  unfold sampleAt closeGrid
  rcases h3 with h3 | h3 | h3
  · rw [h3] at h ⊢
    simp only [chanAt]
    rw [show (3 * ((i / (3 * g.W)) * g.W + i % (3 * g.W) / 3)) = i from by omega]
  · rw [h3] at h ⊢
    simp only [chanAt]
    rw [h]
  · rw [h3] at h ⊢
    simp only [chanAt]
    rw [h]

/-- Reading the low byte of a stamped sample recovers the frame byte
put there by Close. -/
theorem lowByte_closeGrid_stamped (g : Grid) (data : List Nat) (i : Nat)
    (hi : i < data.length) (hd : data.getD i 0 < 256) :
    lowByte (closeGrid g data) i = data.getD i 0 := by
  unfold lowByte
  rw [sampleAt_closeGrid]
  unfold stampSample
  rw [if_pos hi, Nat.mod_eq_of_lt (stamp_lt _ _ hd)]
  exact stamp_low _ _ hd

/-- Unfolding one successful iteration of the reader loop. -/
theorem readLoop_step (g : Grid) (i fuel : Nat) (s s' : RState)
    (h : readStep g i s = some s') :
    readLoop g i (fuel + 1) s = readLoop g (i + 1) fuel s' := by
  rw [readLoop, h]

/-- The first four iterations of the reader loop collect the header
bytes, parse the size from them, and reallocate the buffer. -/
theorem readLoop_header (g : Grid) (fuel : Nat) :
    readLoop g 0 (fuel + 4) ⟨[0, 0, 0, 0], 0, false⟩ =
      readLoop g 4 fuel
        ⟨List.replicate (getUint32BE [lowByte g 0, lowByte g 1, lowByte g 2, lowByte g 3]) 0,
         0, true⟩ := by
  have e0 : readStep g 0 ⟨[0, 0, 0, 0], 0, false⟩ =
      some ⟨[lowByte g 0, 0, 0, 0], 1, false⟩ := rfl
  have e1 : readStep g 1 ⟨[lowByte g 0, 0, 0, 0], 1, false⟩ =
      some ⟨[lowByte g 0, lowByte g 1, 0, 0], 2, false⟩ := rfl
  have e2 : readStep g 2 ⟨[lowByte g 0, lowByte g 1, 0, 0], 2, false⟩ =
      some ⟨[lowByte g 0, lowByte g 1, lowByte g 2, 0], 3, false⟩ := rfl
  have e3 : readStep g 3 ⟨[lowByte g 0, lowByte g 1, lowByte g 2, 0], 3, false⟩ =
      some ⟨List.replicate (getUint32BE [lowByte g 0, lowByte g 1, lowByte g 2, lowByte g 3]) 0,
            0, true⟩ := rfl
  calc readLoop g 0 (fuel + 4) ⟨[0, 0, 0, 0], 0, false⟩
      = readLoop g 1 (fuel + 3) ⟨[lowByte g 0, 0, 0, 0], 1, false⟩ :=
        readLoop_step g 0 (fuel + 3) _ _ e0
    _ = readLoop g 2 (fuel + 2) ⟨[lowByte g 0, lowByte g 1, 0, 0], 2, false⟩ :=
        readLoop_step g 1 (fuel + 2) _ _ e1
    _ = readLoop g 3 (fuel + 1) ⟨[lowByte g 0, lowByte g 1, lowByte g 2, 0], 3, false⟩ :=
        readLoop_step g 2 (fuel + 1) _ _ e2
    _ = readLoop g 4 fuel
          ⟨List.replicate (getUint32BE [lowByte g 0, lowByte g 1, lowByte g 2, lowByte g 3]) 0,
           0, true⟩ :=
        readLoop_step g 3 fuel _ _ e3

/-- Decoding the grid stamped with a well-formed frame recovers the
payload: the materialised buffer of the reader is exactly the payload. -/
theorem newStegoImgReader_closeGrid (g : Grid) (payload : List Nat)
    (hbytes : ∀ b ∈ payload, b < 256)
    (hfit : payload.length + 4 ≤ 3 * g.W * g.H)
    (hL : payload.length < 2 ^ 32) :
    newStegoImgReader (closeGrid g (putUint32BE payload.length ++ payload)) =
      ⟨payload, 0⟩ := by
  have hpb : ∀ j, payload.getD j 0 < 256 := by
    intro j
    by_cases hj : j < payload.length
    · exact hbytes _ (getD_mem payload j 0 hj)
    · rw [List.getD_eq_default payload 0 (by omega)]
      norm_num
  have hflen : (putUint32BE payload.length ++ payload).length = 4 + payload.length := by
    simp [putUint32BE]
    omega
  have hframe_lt : ∀ i, (putUint32BE payload.length ++ payload).getD i 0 < 256 := by
    intro i
    by_cases hi : i < 4
    · interval_cases i <;>
        · simp [putUint32BE]
          first
            | exact Nat.mod_lt _ (by norm_num)
    · rw [List.getD_append_right _ _ _ _ (by simp [putUint32BE]; omega)]
      exact hpb _
  show (StegoImgReader.mk
    (readLoop (closeGrid g (putUint32BE payload.length ++ payload)) 0
      (3 * g.W * g.H) ⟨[0, 0, 0, 0], 0, false⟩).data 0) = _
  rw [show 3 * g.W * g.H = (3 * g.W * g.H - 4) + 4 from by omega]
  rw [readLoop_header]
  have hhead : [lowByte (closeGrid g (putUint32BE payload.length ++ payload)) 0,
      lowByte (closeGrid g (putUint32BE payload.length ++ payload)) 1,
      lowByte (closeGrid g (putUint32BE payload.length ++ payload)) 2,
      lowByte (closeGrid g (putUint32BE payload.length ++ payload)) 3] =
      putUint32BE payload.length := by
    rw [lowByte_closeGrid_stamped _ _ _ (by omega) (hframe_lt 0),
        lowByte_closeGrid_stamped _ _ _ (by omega) (hframe_lt 1),
        lowByte_closeGrid_stamped _ _ _ (by omega) (hframe_lt 2),
        lowByte_closeGrid_stamped _ _ _ (by omega) (hframe_lt 3)]
    simp [putUint32BE]
  rw [hhead, getUint32BE_putUint32BE _ hL]
  rw [readLoop_fill _ payload.length 4 _ _ rfl (by simp) (by omega)]
  have hmap : (List.range payload.length).map
      (fun j => lowByte (closeGrid g (putUint32BE payload.length ++ payload)) (4 + j)) =
      payload := by
    have hcong : ∀ j ∈ List.range payload.length,
        lowByte (closeGrid g (putUint32BE payload.length ++ payload)) (4 + j) =
        payload.getD j 0 := by
      intro j hj
      rw [List.mem_range] at hj
      rw [lowByte_closeGrid_stamped _ _ _ (by omega) (hframe_lt _)]
      rw [List.getD_append_right _ _ _ _ (by simp [putUint32BE])]
      congr 1
      simp [putUint32BE]
    rw [List.map_eq_map_iff.mpr hcong]
    exact map_range_getD payload
  simp [hmap]

/-- A write that fits entirely within the capacity of the fresh writer
is fully buffered with a nil error. -/
theorem write_full_fits (g0 : Grid) (fmt : Fmt) (payload : List Nat)
    (hcap : payload.length + 4 ≤ (g0.W - 1) * (g0.H - 1) * 3) :
    (newStegoImgWriter g0 fmt).write payload =
      (payload.length, none,
        { newStegoImgWriter g0 fmt with data := [0, 0, 0, 0] ++ payload }) := by
  have hcapw : (newStegoImgWriter g0 fmt).cap = (g0.W - 1) * (g0.H - 1) * 3 := by
    show (if (g0.W - 1) * (g0.H - 1) * 3 < 4 then 8 else (g0.W - 1) * (g0.H - 1) * 3) = _
    rw [if_neg (by omega)]
  have h4 : (newStegoImgWriter g0 fmt).data = [0, 0, 0, 0] := rfl
  show writeLoop (newStegoImgWriter g0 fmt) payload 0 = _
  rw [writeLoop_spec payload _ 0 (by rw [h4, hcapw]; simp; omega)]
  rw [if_pos (by rw [h4, hcapw]; simp; omega)]
  rw [h4]
  simp

/-- The output grid of Close, in closed form. -/
theorem close_outGrid (w : StegoImgWriter) :
    w.close.outGrid =
      closeGrid w.grid (putUint32BE ((w.data.length - 4) % 2 ^ 32) ++ w.data.drop 4) := rfl

/-- A Read whose buffer length equals the whole remaining payload
returns all of it together with io.EOF. -/
theorem read_full (data : List Nat) :
    (StegoImgReader.mk data 0).read data.length =
      ⟨data, data.length, true, ⟨data, data.length⟩⟩ := by
  unfold StegoImgReader.read
  simp

/-- C1 (amended): for every payload of length L with
0 ≤ L ≤ 3(W-1)(H-1) - 4 (the capacity the code actually allocates, not
the whole-grid capacity of the spec), writing the L bytes, calling
Close, constructing a reader from the produced output grid and reading
it to end-of-stream yields back exactly the original L bytes. -/
theorem roundtrip_within_code_capacity (g0 : Grid) (fmt : Fmt) (payload : List Nat)
    (hbytes : ∀ b ∈ payload, b < 256)
    (hcap : payload.length + 4 ≤ (g0.W - 1) * (g0.H - 1) * 3)
    (hL : payload.length < 2 ^ 32) :
    ((newStegoImgWriter g0 fmt).write payload).1 = payload.length ∧
    ((newStegoImgWriter g0 fmt).write payload).2.1 = none ∧
    (newStegoImgReader (((newStegoImgWriter g0 fmt).write payload).2.2.close).outGrid).data
      = payload ∧
    ((newStegoImgReader (((newStegoImgWriter g0 fmt).write payload).2.2.close).outGrid).read
      payload.length).bytes = payload ∧
    ((newStegoImgReader (((newStegoImgWriter g0 fmt).write payload).2.2.close).outGrid).read
      payload.length).eof = true := by
  have hfit : payload.length + 4 ≤ 3 * g0.W * g0.H := by
    calc payload.length + 4 ≤ (g0.W - 1) * (g0.H - 1) * 3 := hcap
      _ ≤ g0.W * g0.H * 3 :=
        Nat.mul_le_mul_right 3 (Nat.mul_le_mul (Nat.sub_le _ _) (Nat.sub_le _ _))
      _ = 3 * g0.W * g0.H := by ring
  rw [write_full_fits g0 fmt payload hcap]
  have hclose : ({ newStegoImgWriter g0 fmt with data := [0, 0, 0, 0] ++ payload }).close.outGrid
      = closeGrid g0 (putUint32BE payload.length ++ payload) := by
    rw [close_outGrid]
    have hgrid : ({ newStegoImgWriter g0 fmt with data := [0, 0, 0, 0] ++ payload }).grid
        = g0 := rfl
    have hdata : ({ newStegoImgWriter g0 fmt with data := [0, 0, 0, 0] ++ payload }).data
        = [0, 0, 0, 0] ++ payload := rfl
    rw [hgrid, hdata]
    have harg : (([0, 0, 0, 0] ++ payload).length - 4) % 2 ^ 32 = payload.length := by
      simp
      omega
    rw [harg]
    congr 1
  rw [hclose]
  rw [newStegoImgReader_closeGrid g0 payload hbytes hfit hL]
  have hread := read_full payload
  refine ⟨rfl, rfl, rfl, ?_, ?_⟩
  · rw [hread]
  · rw [hread]

/-- C1 witness: the round-trip theorem instantiated on a 3x3 carrier
with the 2-byte payload [72, 73]. -/
theorem roundtrip_within_code_capacity_witness :
    (∀ b ∈ ([72, 73] : List Nat), b < 256) ∧
    ([72, 73] : List Nat).length + 4 ≤ ((cgrid 3 3).W - 1) * ((cgrid 3 3).H - 1) * 3 ∧
    ([72, 73] : List Nat).length < 2 ^ 32 ∧
    (((newStegoImgWriter (cgrid 3 3) Fmt.png).write [72, 73]).1 = ([72, 73] : List Nat).length ∧
     ((newStegoImgWriter (cgrid 3 3) Fmt.png).write [72, 73]).2.1 = none ∧
     (newStegoImgReader
       (((newStegoImgWriter (cgrid 3 3) Fmt.png).write [72, 73]).2.2.close).outGrid).data
       = [72, 73] ∧
     ((newStegoImgReader
       (((newStegoImgWriter (cgrid 3 3) Fmt.png).write [72, 73]).2.2.close).outGrid).read
       ([72, 73] : List Nat).length).bytes = [72, 73] ∧
     ((newStegoImgReader
       (((newStegoImgWriter (cgrid 3 3) Fmt.png).write [72, 73]).2.2.close).outGrid).read
       ([72, 73] : List Nat).length).eof = true) :=
  ⟨by decide, by decide, by decide,
   roundtrip_within_code_capacity (cgrid 3 3) Fmt.png [72, 73]
     (by decide) (by decide) (by decide)⟩

/-- C1 counterexample: on a 2x3 carrier the payload [1, 2, 3] is within
the whole-grid capacity 3WH - 4 = 14 of the spec, yet the writer only
buffers 2 of its 3 bytes and the decoded stream is [1, 2], not
[1, 2, 3]. -/
theorem roundtrip_fails_at_spec_capacity_2x3 :
    ((newStegoImgWriter (cgrid 2 3) Fmt.png).write [1, 2, 3]).1 = 2 ∧
    (newStegoImgReader
      (((newStegoImgWriter (cgrid 2 3) Fmt.png).write [1, 2, 3]).2.2.close).outGrid).data
      = [1, 2] ∧
    ([1, 2, 3] : List Nat).length + 4 ≤ 3 * (cgrid 2 3).W * (cgrid 2 3).H :=
  ⟨by decide, by decide, by decide⟩

/-- C2 (amended): the payload capacity of a fresh writer over a W x H
carrier is 3(W-1)(H-1) - 4, not 3WH - 4: SpaceLeft reports it, a write
buffers min(len p, capacity) bytes, and ImageFull is reported exactly
when the request exceeds it. -/
theorem writer_capacity_is_cropped_grid (g : Grid) (fmt : Fmt) (p : List Nat)
    (h4 : 4 ≤ (g.W - 1) * (g.H - 1) * 3) :
    (newStegoImgWriter g fmt).spaceLeft = (g.W - 1) * (g.H - 1) * 3 - 4 ∧
    ((newStegoImgWriter g fmt).write p).1 =
      min p.length ((g.W - 1) * (g.H - 1) * 3 - 4) ∧
    (((newStegoImgWriter g fmt).write p).2.1 = some StegoErr.ImageFull ↔
      (g.W - 1) * (g.H - 1) * 3 - 4 < p.length) := by
  have hcapw : (newStegoImgWriter g fmt).cap = (g.W - 1) * (g.H - 1) * 3 := by
    show (if (g.W - 1) * (g.H - 1) * 3 < 4 then 8 else (g.W - 1) * (g.H - 1) * 3) = _
    rw [if_neg (by omega)]
  have h4d : (newStegoImgWriter g fmt).data = [0, 0, 0, 0] := rfl
  refine ⟨?_, ?_, ?_⟩
  · show (newStegoImgWriter g fmt).cap - (newStegoImgWriter g fmt).data.length = _
    rw [hcapw, h4d]
    rfl
  · show (writeLoop (newStegoImgWriter g fmt) p 0).1 = _
    rw [writeLoop_spec p _ 0 (by rw [h4d, hcapw]; simp; omega)]
    rw [h4d, hcapw]
    split <;> simp_all <;> omega
  · show (writeLoop (newStegoImgWriter g fmt) p 0).2.1 = some StegoErr.ImageFull ↔ _
    rw [writeLoop_spec p _ 0 (by rw [h4d, hcapw]; simp; omega)]
    rw [h4d, hcapw]
    split <;> simp_all <;> omega

/-- C2 witness: the capacity theorem instantiated on a 3x3 carrier with
a 9-byte request (capacity is 8). -/
theorem writer_capacity_is_cropped_grid_witness :
    (4 : Nat) ≤ ((cgrid 3 3).W - 1) * ((cgrid 3 3).H - 1) * 3 ∧
    ((newStegoImgWriter (cgrid 3 3) Fmt.png).spaceLeft =
       ((cgrid 3 3).W - 1) * ((cgrid 3 3).H - 1) * 3 - 4 ∧
     ((newStegoImgWriter (cgrid 3 3) Fmt.png).write (List.replicate 9 1)).1 =
       min (List.replicate 9 1).length (((cgrid 3 3).W - 1) * ((cgrid 3 3).H - 1) * 3 - 4) ∧
     (((newStegoImgWriter (cgrid 3 3) Fmt.png).write (List.replicate 9 1)).2.1 =
        some StegoErr.ImageFull ↔
      ((cgrid 3 3).W - 1) * ((cgrid 3 3).H - 1) * 3 - 4 < (List.replicate 9 1).length)) :=
  ⟨by decide, writer_capacity_is_cropped_grid (cgrid 3 3) Fmt.png (List.replicate 9 1) (by decide)⟩

/-- C2 counterexample: on a 3x3 carrier the claim says the writer
accepts exactly 3*3*3 - 4 = 23 payload bytes before reporting full; the
code accepts only 8 and reports ImageFull. -/
theorem writer_capacity_not_whole_grid_3x3 :
    ((newStegoImgWriter (cgrid 3 3) Fmt.png).write (List.replicate (3 * 3 * 3 - 4) 1)).1 = 8 ∧
    ((newStegoImgWriter (cgrid 3 3) Fmt.png).write (List.replicate (3 * 3 * 3 - 4) 1)).2.1 =
      some StegoErr.ImageFull ∧
    (8 : Nat) ≠ 3 * 3 * 3 - 4 :=
  ⟨by decide, by decide, by decide⟩

/-- C3: the code evaluated at the failing input.  A fresh writer over a
2x3 carrier has remaining payload capacity exactly 2; Write of the
2-byte slice [1, 2] returns n = 2 with a NIL error, although the claim
and the doc comment of Write itself say ImageFull is returned even when
all bytes were written if they fill the final available byte. -/
theorem exact_fill_returns_nil_not_imagefull :
    (newStegoImgWriter (cgrid 2 3) Fmt.png).spaceLeft = 2 ∧
    ((newStegoImgWriter (cgrid 2 3) Fmt.png).write [1, 2]).1 = 2 ∧
    ((newStegoImgWriter (cgrid 2 3) Fmt.png).write [1, 2]).2.1 = none :=
  ⟨by decide, by decide, by decide⟩

/-- C4 (amended): with capacity C = 3(W-1)(H-1) - 4 (the formula of the
code, not 3WH - 4), writing exactly C bytes to a fresh writer succeeds
with no ImageFull, and writing C + 1 bytes returns n = C together with
ImageFull. -/
theorem write_boundary_at_code_capacity (g : Grid) (fmt : Fmt) (p q : List Nat)
    (h4 : 4 ≤ (g.W - 1) * (g.H - 1) * 3)
    (hp : p.length = (g.W - 1) * (g.H - 1) * 3 - 4)
    (hq : q.length = (g.W - 1) * (g.H - 1) * 3 - 4 + 1) :
    ((newStegoImgWriter g fmt).write p).1 = (g.W - 1) * (g.H - 1) * 3 - 4 ∧
    ((newStegoImgWriter g fmt).write p).2.1 = none ∧
    ((newStegoImgWriter g fmt).write q).1 = (g.W - 1) * (g.H - 1) * 3 - 4 ∧
    ((newStegoImgWriter g fmt).write q).2.1 = some StegoErr.ImageFull := by
  have hcapw : (newStegoImgWriter g fmt).cap = (g.W - 1) * (g.H - 1) * 3 := by
    show (if (g.W - 1) * (g.H - 1) * 3 < 4 then 8 else (g.W - 1) * (g.H - 1) * 3) = _
    rw [if_neg (by omega)]
  have h4d : (newStegoImgWriter g fmt).data = [0, 0, 0, 0] := rfl
  have hwp : (newStegoImgWriter g fmt).write p = (writeLoop (newStegoImgWriter g fmt) p 0) := rfl
  have hwq : (newStegoImgWriter g fmt).write q = (writeLoop (newStegoImgWriter g fmt) q 0) := rfl
  rw [hwp, hwq,
    writeLoop_spec p _ 0 (by rw [h4d, hcapw]; simp; omega),
    writeLoop_spec q _ 0 (by rw [h4d, hcapw]; simp; omega)]
  rw [h4d, hcapw]
  rw [if_pos (by simp; omega), if_neg (by simp; omega)]
  refine ⟨?_, ?_, ?_, ?_⟩ <;> simp <;> omega

/-- C4 witness: the boundary theorem instantiated on a 3x3 carrier
(capacity 8) with an 8-byte and a 9-byte payload. -/
theorem write_boundary_at_code_capacity_witness :
    (4 : Nat) ≤ ((cgrid 3 3).W - 1) * ((cgrid 3 3).H - 1) * 3 ∧
    (List.replicate 8 7).length = ((cgrid 3 3).W - 1) * ((cgrid 3 3).H - 1) * 3 - 4 ∧
    (List.replicate 9 7).length = ((cgrid 3 3).W - 1) * ((cgrid 3 3).H - 1) * 3 - 4 + 1 ∧
    (((newStegoImgWriter (cgrid 3 3) Fmt.png).write (List.replicate 8 7)).1 =
       ((cgrid 3 3).W - 1) * ((cgrid 3 3).H - 1) * 3 - 4 ∧
     ((newStegoImgWriter (cgrid 3 3) Fmt.png).write (List.replicate 8 7)).2.1 = none ∧
     ((newStegoImgWriter (cgrid 3 3) Fmt.png).write (List.replicate 9 7)).1 =
       ((cgrid 3 3).W - 1) * ((cgrid 3 3).H - 1) * 3 - 4 ∧
     ((newStegoImgWriter (cgrid 3 3) Fmt.png).write (List.replicate 9 7)).2.1 =
       some StegoErr.ImageFull) :=
  ⟨by decide, by decide, by decide,
   write_boundary_at_code_capacity (cgrid 3 3) Fmt.png (List.replicate 8 7) (List.replicate 9 7)
     (by decide) (by decide) (by decide)⟩

/-- C4 counterexample: on a 2x3 carrier the claim says writing exactly
capacity(W, H) = 3*2*3 - 4 = 14 bytes succeeds with no ImageFull; the
code buffers only 2 of the 14 bytes and returns ImageFull. -/
theorem write_exact_spec_capacity_reports_full_2x3 :
    ((newStegoImgWriter (cgrid 2 3) Fmt.png).write (List.replicate (3 * 2 * 3 - 4) 1)).1 = 2 ∧
    ((newStegoImgWriter (cgrid 2 3) Fmt.png).write (List.replicate (3 * 2 * 3 - 4) 1)).2.1 =
      some StegoErr.ImageFull :=
  ⟨by decide, by decide⟩

/-- C5 (amended): construction never fails with CarrierTooSmall; the
constructor has no failure path after a successful decode, and even for
a grid too small for the header the append growth leaves at least the
4 header bytes of capacity, so nothing wraps or underflows. -/
theorem construction_never_carrier_too_small (g : Grid) (fmt : Fmt) :
    (newStegoImgWriterE g fmt).isOk = true ∧ 4 ≤ (newStegoImgWriter g fmt).cap := by
  refine ⟨rfl, ?_⟩
  show 4 ≤ if (g.W - 1) * (g.H - 1) * 3 < 4 then 8 else (g.W - 1) * (g.H - 1) * 3
  split <;> omega

/-- C5 counterexample: a 1x1 carrier cannot hold the 4-byte header
(spec capacity 3*1*1 - 4 < 0), yet construction succeeds and SpaceLeft
reports 4 grown bytes instead of failing with CarrierTooSmall. -/
theorem too_small_carrier_construction_succeeds :
    (newStegoImgWriterE (cgrid 1 1) Fmt.png).isOk = true ∧
    (newStegoImgWriter (cgrid 1 1) Fmt.png).spaceLeft = 4 :=
  ⟨rfl, rfl⟩

/-- C6 (amended): reader construction never fails with
TruncatedCarrier: after a successful decode the constructor returns a
nil error on every path, even when the grid is exhausted before
HEADER_SIZE + length bytes are available. -/
theorem reader_construction_always_ok (g : Grid) :
    newStegoImgReaderE g = Except.ok (newStegoImgReader g) := rfl

/-- C6 counterexample: on the 1x2 carrier whose header claims 5 payload
bytes while only 2 samples remain, construction succeeds with a nil
error and the reader holds the short, zero-padded garbage buffer
[7, 8, 0, 0, 0] instead of failing with TruncatedCarrier. -/
theorem truncated_carrier_reads_garbage :
    (newStegoImgReaderE truncGrid).isOk = true ∧
    (newStegoImgReader truncGrid).data = [7, 8, 0, 0, 0] :=
  ⟨rfl, by decide⟩

/-- C7: Read copies min(len(buf), length - pos) bytes starting at the
read position, advances the position by that count, and returns io.EOF
exactly when the advanced position equals the payload length, so the
final partial read returns its count and EOF together. -/
theorem read_copies_min_advances_and_signals_eof (data : List Nat) (pos buflen : Nat)
    (hpos : pos ≤ data.length) :
    ((StegoImgReader.mk data pos).read buflen).n = min buflen (data.length - pos) ∧
    ((StegoImgReader.mk data pos).read buflen).reader.pos =
      pos + min buflen (data.length - pos) ∧
    (((StegoImgReader.mk data pos).read buflen).eof = true ↔
      pos + min buflen (data.length - pos) = data.length) ∧
    ((StegoImgReader.mk data pos).read buflen).bytes.length = min buflen (data.length - pos) ∧
    (∀ j, j < min buflen (data.length - pos) →
      ((StegoImgReader.mk data pos).read buflen).bytes.getD j 0 = data.getD (pos + j) 0) := by
  have hto : (if buflen > data.length - pos then data.length - pos else buflen) =
      min buflen (data.length - pos) := by
    split <;> omega
  unfold StegoImgReader.read
  simp only [hto]
  refine ⟨trivial, trivial, by simp, ?_, ?_⟩
  · simp only [List.length_take, List.length_drop]
    omega
  · intro j hj
    rw [getD_take_lt _ _ _ _ hj, getD_drop]

/-- C7 witness: the Read theorem instantiated on the 3-byte stream
[10, 11, 12] at position 1 with a 5-byte buffer. -/
theorem read_copies_min_advances_and_signals_eof_witness :
    (1 : Nat) ≤ ([10, 11, 12] : List Nat).length ∧
    (((StegoImgReader.mk [10, 11, 12] 1).read 5).n =
       min 5 (([10, 11, 12] : List Nat).length - 1) ∧
     ((StegoImgReader.mk [10, 11, 12] 1).read 5).reader.pos =
       1 + min 5 (([10, 11, 12] : List Nat).length - 1) ∧
     (((StegoImgReader.mk [10, 11, 12] 1).read 5).eof = true ↔
       1 + min 5 (([10, 11, 12] : List Nat).length - 1) = ([10, 11, 12] : List Nat).length) ∧
     ((StegoImgReader.mk [10, 11, 12] 1).read 5).bytes.length =
       min 5 (([10, 11, 12] : List Nat).length - 1) ∧
     (∀ j, j < min 5 (([10, 11, 12] : List Nat).length - 1) →
       ((StegoImgReader.mk [10, 11, 12] 1).read 5).bytes.getD j 0 =
         ([10, 11, 12] : List Nat).getD (1 + j) 0)) :=
  ⟨by decide, read_copies_min_advances_and_signals_eof [10, 11, 12] 1 5 (by decide)⟩

/-- C8: every Write on a closed writer (here: the writer state returned
by Close, whose is_open flag is cleared) returns n = 0 together with
ImageClosed and leaves the writer state, including its buffered data,
unchanged. -/
theorem write_after_close_returns_imageclosed (w : StegoImgWriter) (p : List Nat) :
    (w.close.writer).write p = (0, some StegoErr.ImageClosed, w.close.writer) := rfl

/-- C9: after Close, every channel sample at a traversal index at or
beyond the frame length keeps the original carrier value (for writer
states holding the 4 header bytes, the frame length equals the buffered
length), and the alpha of every output pixel is forced to 0xFFFF. -/
theorem close_keeps_tail_samples_and_forces_alpha (w : StegoImgWriter) (i x y : Nat)
    (h4 : 4 ≤ w.data.length) (hi : w.data.length ≤ i)
    (hs : sampleAt w.grid i < 65536) :
    sampleAt w.close.outGrid i = sampleAt w.grid i ∧
    ((w.close.outGrid).px x y).a = 0xFFFF := by
  constructor
  · rw [close_outGrid, sampleAt_closeGrid]
    unfold stampSample
    rw [if_neg (by simp [putUint32BE]; omega)]
    exact Nat.mod_eq_of_lt hs
  · rw [close_outGrid]
    rfl

/-- C9 witness: the tail-preservation theorem instantiated on a fresh
writer over a 2x2 carrier (frame length 4) at traversal index 5 and
output pixel (0, 1). -/
theorem close_keeps_tail_samples_and_forces_alpha_witness :
    4 ≤ (newStegoImgWriter (cgrid 2 2) Fmt.png).data.length ∧
    (newStegoImgWriter (cgrid 2 2) Fmt.png).data.length ≤ 5 ∧
    sampleAt (newStegoImgWriter (cgrid 2 2) Fmt.png).grid 5 < 65536 ∧
    (sampleAt (newStegoImgWriter (cgrid 2 2) Fmt.png).close.outGrid 5 =
      sampleAt (newStegoImgWriter (cgrid 2 2) Fmt.png).grid 5 ∧
     (((newStegoImgWriter (cgrid 2 2) Fmt.png).close.outGrid).px 0 1).a = 0xFFFF) :=
  ⟨by decide, by decide, by decide,
   close_keeps_tail_samples_and_forces_alpha (newStegoImgWriter (cgrid 2 2) Fmt.png) 5 0 1
     (by decide) (by decide) (by decide)⟩

/-- C10: for every successfully constructed writer the container format
is forced to png whatever the decoded input format was, and Close
returns a nil error (the error result of the png encoder is
discarded), so the unsupported-format branch is unreachable. -/
theorem format_forced_png_and_close_nil (g : Grid) (fmt : Fmt) :
    (newStegoImgWriter g fmt).format = Fmt.png ∧
    (newStegoImgWriter g fmt).close.err = none :=
  ⟨rfl, rfl⟩
